import Mathlib

/-!
Verification of the standings aggregator and the owner-scoped CRUD handlers of
the gerador-times backend.

The embedding mirrors `src/server.js` (the current server version, whose second
half defines the `Match` schema, the match/stats routes and
`calculateTeamStats`) and the legacy unauthenticated handlers found in
`src/unnamed/part_000`.

JavaScript-specific semantics that matter here are made explicit:
* `Array.prototype.sort()` sorts IN PLACE and returns the same array, so
  `match.teamA.sort().join(',')` both computes the identity key and mutates the
  stored roster; the `team` field captured right after is therefore the sorted
  array.  `matchesAfter` below models the state of the input list after the
  call.
* JavaScript string sort compares strings lexicographically; we model it with
  the linear order on `String`.
* For the error-handling claim, an absent (`undefined`) score is modelled with
  `Option Int`, where `none` plays the role of `undefined`/`NaN`: adding it to
  anything yields `none` and every `<`/`>` comparison with it is false, exactly
  as `undefined + n = NaN`, `NaN + n = NaN` and `NaN < n = false` in JS.
-/

namespace GeradorTimes

/-- A match record as read by `calculateTeamStats` (`src/server.js`, match
schema lines 346-355; the aggregator reads `teamA`, `teamB`, `scoreA`,
`scoreB`).  Scores are integers, as guaranteed upstream by the schema
(`Number, required, min 0`). -/
structure Match where
  teamA : List String
  teamB : List String
  scoreA : Int
  scoreB : Int
deriving DecidableEq

/-- The per-team accumulator object created at lines 404-427 of
`src/server.js` (no derived fields yet). -/
structure TeamAcc where
  team : List String
  wins : Int
  losses : Int
  draws : Int
  goalsFor : Int
  goalsAgainst : Int
  «matches» : Int
deriving DecidableEq

/-- A finished standings entry: the accumulator plus the derived `points` and
`goalDifference` fields added at lines 451-455. -/
structure TeamStat where
  team : List String
  wins : Int
  losses : Int
  draws : Int
  goalsFor : Int
  goalsAgainst : Int
  «matches» : Int
  points : Int
  goalDifference : Int
deriving DecidableEq

/-- Lexicographic comparison of character sequences by code point, i.e. the
order JavaScript's default `Array.prototype.sort()` applies to strings
(UTF-16 code-unit order; identical to code-point order on the names
involved). -/
def charListLe : List Char → List Char → Bool
  | [], _ => true
  | _ :: _, [] => false
  | a :: as, b :: bs =>
    decide (a.toNat < b.toNat) || (decide (a.toNat = b.toNat) && charListLe as bs)

/-- The string order used by JavaScript's default sort. -/
def strLe (a b : String) : Prop :=
  charListLe a.data b.data = true

instance : DecidableRel strLe := fun a b =>
  decidable_of_iff (charListLe a.data b.data = true) Iff.rfl

/-- JavaScript's in-place `Array.prototype.sort()` on an array of strings,
modelled functionally: a stable sort by the default string order. -/
def jsSort (l : List String) : List String :=
  List.insertionSort strLe l

/-- `match.teamA.sort().join(',')` — the team identity key (lines 400-401). -/
def teamKey (l : List String) : String :=
  String.intercalate "," (jsSort l)

/-- The `teamStats` object: a string-keyed map in insertion order. -/
abbrev Stats (β : Type) := List (String × β)

/-- Property access `teamStats[key]`: the value stored under `key`, if any. -/
def lookupKey {β : Type} : Stats β → String → Option β
  | [], _ => none
  | p :: ps, k => if p.1 = k then some p.2 else lookupKey ps k

/-- The keys of the map, in insertion order. -/
def keysOf {β : Type} (s : Stats β) : List String :=
  s.map Prod.fst

/-- `if (!teamStats[key]) teamStats[key] = v` (lines 404-414 / 417-427). -/
def insertEntry {β : Type} (s : Stats β) (k : String) (v : β) : Stats β :=
  if (lookupKey s k).isSome then s else s ++ [(k, v)]

/-- An assignment `teamStats[key] = f(teamStats[key])`: updates the (unique)
entry stored under `key`; no-op when the key is absent. -/
def updateAt {β : Type} (k : String) (f : β → β) : Stats β → Stats β
  | [] => []
  | p :: ps => if p.1 = k then (p.1, f p.2) :: ps else p :: updateAt k f ps

/-- The fresh accumulator of lines 405-413: all counters zero; the `team`
field receives `match.teamA` (resp. `teamB`), which at that point has already
been sorted in place by the key computation. -/
def initAcc (team : List String) : TeamAcc :=
  { team := team, wins := 0, losses := 0, draws := 0,
    goalsFor := 0, goalsAgainst := 0, «matches» := 0 }

/-- The body of the `matches.forEach` loop (lines 399-449): key computation,
entry creation for both sides, then the per-match statistic updates in source
order. -/
def processMatch (stats : Stats TeamAcc) (m : Match) : Stats TeamAcc :=
  let sortedA := jsSort m.teamA
  let sortedB := jsSort m.teamB
  let teamAKey := String.intercalate "," sortedA
  let teamBKey := String.intercalate "," sortedB
  let s1 := insertEntry stats teamAKey (initAcc sortedA)
  let s2 := insertEntry s1 teamBKey (initAcc sortedB)
  let s3 := updateAt teamAKey (fun t => { t with «matches» := t.«matches» + 1 }) s2
  let s4 := updateAt teamBKey (fun t => { t with «matches» := t.«matches» + 1 }) s3
  let s5 := updateAt teamAKey
    (fun t => { t with goalsFor := t.goalsFor + m.scoreA,
                       goalsAgainst := t.goalsAgainst + m.scoreB }) s4
  let s6 := updateAt teamBKey
    (fun t => { t with goalsFor := t.goalsFor + m.scoreB,
                       goalsAgainst := t.goalsAgainst + m.scoreA }) s5
  if m.scoreA > m.scoreB then
    updateAt teamBKey (fun t => { t with losses := t.losses + 1 })
      (updateAt teamAKey (fun t => { t with wins := t.wins + 1 }) s6)
  else if m.scoreA < m.scoreB then
    updateAt teamBKey (fun t => { t with wins := t.wins + 1 })
      (updateAt teamAKey (fun t => { t with losses := t.losses + 1 }) s6)
  else
    updateAt teamBKey (fun t => { t with draws := t.draws + 1 })
      (updateAt teamAKey (fun t => { t with draws := t.draws + 1 }) s6)

/-- The final `map` of lines 451-454: spread the accumulator and add the
derived fields `points = wins*3 + draws` and
`goalDifference = goalsFor - goalsAgainst`. -/
def finalize (t : TeamAcc) : TeamStat :=
  { team := t.team, wins := t.wins, losses := t.losses, draws := t.draws,
    goalsFor := t.goalsFor, goalsAgainst := t.goalsAgainst,
    «matches» := t.«matches»,
    points := t.wins * 3 + t.draws,
    goalDifference := t.goalsFor - t.goalsAgainst }

/-- The sort order of line 455: the comparator
`(a, b) => b.points - a.points || b.goalDifference - a.goalDifference`
places `a` no later than `b` exactly when this relation holds. -/
def statLe (a b : TeamStat) : Prop :=
  a.points > b.points ∨
    (a.points = b.points ∧ a.goalDifference ≥ b.goalDifference)

instance : DecidableRel statLe := fun a b =>
  decidable_of_iff
    (a.points > b.points ∨
      (a.points = b.points ∧ a.goalDifference ≥ b.goalDifference)) Iff.rfl

/-- `calculateTeamStats` (lines 396-456): fold all matches into the keyed
accumulator map, derive `points`/`goalDifference`, and sort by the
points/goal-difference comparator. -/
def calculateTeamStats (ms : List Match) : List TeamStat :=
  List.insertionSort statLe
    ((ms.foldl processMatch []).map (fun p => finalize p.2))

/-- The value of the caller's match list after `calculateTeamStats` returns:
the in-place `.sort()` at lines 400-401 has reordered each match's `teamA`
and `teamB` arrays; nothing else is written. -/
def matchesAfter (ms : List Match) : List Match :=
  ms.map (fun m => { m with teamA := jsSort m.teamA, teamB := jsSort m.teamB })

/-- The accumulator currently stored for a key, defaulting to a zeroed
accumulator when the key is absent (only counter fields of the default are
ever used). -/
def accOf (s : Stats TeamAcc) (k : String) : TeamAcc :=
  (lookupKey s k).getD (initAcc [])

/-- All identity keys occurring among `teamA`/`teamB` of a match list, in
encounter order. -/
def allKeys : List Match → List String
  | [] => []
  | m :: ms => teamKey m.teamA :: teamKey m.teamB :: allKeys ms

/-- All rosters occurring in a match list, in encounter order (per match,
`teamA` before `teamB`, matching the entry-creation order of the loop). -/
def rosters : List Match → List (List String)
  | [] => []
  | m :: ms => m.teamA :: m.teamB :: rosters ms

/-- The first roster in encounter order whose identity key is `k`. -/
def firstRoster (ms : List Match) (k : String) : Option (List String) :=
  (rosters ms).find? (fun l => teamKey l = k)

/-! ### The aggregator under JavaScript number semantics

For the error-handling claim the scores must be allowed to be absent or
non-numeric.  A score is modelled as `Option Int`: `none` stands for
`undefined` (or any value whose arithmetic yields `NaN`).  `jsAdd` mirrors
`x + y` on JS numbers where either side may be `undefined`/`NaN` (the result
is then `NaN`), and `jsGt`/`jsLt` mirror `>`/`<`, which are false whenever a
side is `NaN`.  `calculateTeamStatsJs` is the same line-by-line translation of
`calculateTeamStats` under these semantics; it has no error path. -/

/-- Addition on JS numbers with `none` as `undefined`/`NaN`: NaN is
absorbing. -/
def jsAdd : Option Int → Option Int → Option Int
  | some a, some b => some (a + b)
  | _, _ => none

/-- `x > y` on JS numbers: false when either side is `NaN`. -/
def jsGt : Option Int → Option Int → Bool
  | some a, some b => decide (a > b)
  | _, _ => false

/-- `x < y` on JS numbers: false when either side is `NaN`. -/
def jsLt : Option Int → Option Int → Bool
  | some a, some b => decide (a < b)
  | _, _ => false

/-- A match record whose scores may be absent/non-numeric. -/
structure MatchJs where
  teamA : List String
  teamB : List String
  scoreA : Option Int
  scoreB : Option Int
deriving DecidableEq

/-- Accumulator under JS number semantics: the goal tallies may be `NaN`. -/
structure TeamAccJs where
  team : List String
  wins : Int
  losses : Int
  draws : Int
  goalsFor : Option Int
  goalsAgainst : Option Int
  «matches» : Int
deriving DecidableEq

/-- Standings entry under JS number semantics. -/
structure TeamStatJs where
  team : List String
  wins : Int
  losses : Int
  draws : Int
  goalsFor : Option Int
  goalsAgainst : Option Int
  «matches» : Int
  points : Int
  goalDifference : Option Int
deriving DecidableEq

/-- Fresh accumulator (lines 405-413) in the JS-number model. -/
def initAccJs (team : List String) : TeamAccJs :=
  { team := team, wins := 0, losses := 0, draws := 0,
    goalsFor := some 0, goalsAgainst := some 0, «matches» := 0 }

/-- The `forEach` body (lines 399-449) in the JS-number model. -/
def processMatchJs (stats : Stats TeamAccJs) (m : MatchJs) : Stats TeamAccJs :=
  let teamAKey := teamKey m.teamA
  let teamBKey := teamKey m.teamB
  let s1 := insertEntry stats teamAKey (initAccJs (jsSort m.teamA))
  let s2 := insertEntry s1 teamBKey (initAccJs (jsSort m.teamB))
  let s3 := updateAt teamAKey (fun t => { t with «matches» := t.«matches» + 1 }) s2
  let s4 := updateAt teamBKey (fun t => { t with «matches» := t.«matches» + 1 }) s3
  let s5 := updateAt teamAKey
    (fun t => { t with goalsFor := jsAdd t.goalsFor m.scoreA,
                       goalsAgainst := jsAdd t.goalsAgainst m.scoreB }) s4
  let s6 := updateAt teamBKey
    (fun t => { t with goalsFor := jsAdd t.goalsFor m.scoreB,
                       goalsAgainst := jsAdd t.goalsAgainst m.scoreA }) s5
  if jsGt m.scoreA m.scoreB then
    updateAt teamBKey (fun t => { t with losses := t.losses + 1 })
      (updateAt teamAKey (fun t => { t with wins := t.wins + 1 }) s6)
  else if jsLt m.scoreA m.scoreB then
    updateAt teamBKey (fun t => { t with wins := t.wins + 1 })
      (updateAt teamAKey (fun t => { t with losses := t.losses + 1 }) s6)
  else
    updateAt teamBKey (fun t => { t with draws := t.draws + 1 })
      (updateAt teamAKey (fun t => { t with draws := t.draws + 1 }) s6)

/-- `x - y` on JS numbers: `NaN` when either side is. -/
def jsSub : Option Int → Option Int → Option Int
  | some a, some b => some (a - b)
  | _, _ => none

/-- Lines 451-454 in the JS-number model. -/
def finalizeJs (t : TeamAccJs) : TeamStatJs :=
  { team := t.team, wins := t.wins, losses := t.losses, draws := t.draws,
    goalsFor := t.goalsFor, goalsAgainst := t.goalsAgainst,
    «matches» := t.«matches»,
    points := t.wins * 3 + t.draws,
    goalDifference := jsSub t.goalsFor t.goalsAgainst }

/-- Goal-difference tie-break in the JS-number model; the ECMAScript sort
treats a `NaN` comparator result as `0` (a tie). -/
def jsGdGe : Option Int → Option Int → Bool
  | some x, some y => decide (x ≥ y)
  | _, _ => true

/-- The line-455 comparator in the JS-number model. -/
def statLeJs (a b : TeamStatJs) : Prop :=
  a.points > b.points ∨
    (a.points = b.points ∧ jsGdGe a.goalDifference b.goalDifference = true)

instance : DecidableRel statLeJs := fun a b =>
  decidable_of_iff
    (a.points > b.points ∨
      (a.points = b.points ∧ jsGdGe a.goalDifference b.goalDifference = true))
    Iff.rfl

/-- `calculateTeamStats` in the JS-number model: total, with no error path;
malformed scores flow through as `NaN`. -/
def calculateTeamStatsJs (ms : List MatchJs) : List TeamStatJs :=
  List.insertionSort statLeJs
    ((ms.foldl processMatchJs []).map (fun p => finalizeJs p.2))

/-- A JS-model accumulator entry is NaN-poisoned when one of its goal tallies
is `NaN`. -/
def poisonedAcc (t : TeamAccJs) : Prop :=
  t.goalsFor = none ∨ t.goalsAgainst = none

/-! ### The user-scoped CRUD layer

`src/server.js` stores `Group` and `Match` documents, each carrying the
owning user's id.  The database is modelled as in-memory lists of records;
each HTTP handler becomes a function from caller identity (the `sub` claim
the auth middleware puts in `req.user`) and request data to a result and/or
an updated database.  The legacy handlers of `src/unnamed/part_000` carry no
caller identity at all: that file has no auth middleware, its list route
reads the user id from the query string, and its update/delete routes select
records by id only. -/

/-- A member subdocument of the `Group` schema. -/
structure Member where
  name : String
  active : Bool
deriving DecidableEq

/-- A stored `Group` document. -/
structure GroupRec where
  id : String
  name : String
  members : List Member
  userId : String
deriving DecidableEq

/-- A stored `Match` document (full schema, lines 346-355). -/
structure MatchRec where
  id : String
  teamA : List String
  teamB : List String
  scoreA : Int
  scoreB : Int
  date : Int
  userId : String
deriving DecidableEq

/-- The two Mongo collections. -/
structure Db where
  groups : List GroupRec
  «matches» : List MatchRec
deriving DecidableEq

/-- `GET /api/groups` (server.js): `Group.find({ userId })` with
`userId = req.user.sub`. -/
def getGroups (caller : String) (db : Db) : List GroupRec :=
  db.groups.filter (fun g => g.userId = caller)

/-- `POST /api/groups` (server.js): `{...req.body, userId: req.user.sub}` —
any `userId` in the body is overwritten with the caller's. -/
def postGroup (caller : String) (db : Db) (id name : String)
    (members : List Member) : Db :=
  { db with groups :=
      db.groups ++ [{ id := id, name := name, members := members, userId := caller }] }

/-- JavaScript `x || y` for an optional string field: `undefined` and the
empty string are falsy. -/
def jsOrStr : Option String → String → String
  | some s, d => if s = "" then d else s
  | none, d => d

/-- JavaScript `x || y` for an optional members array: any present array
(even empty) is truthy. -/
def jsOrMembers : Option (List Member) → List Member → List Member
  | some l, _ => l
  | none, d => d

/-- `PUT /api/groups/:id` (server.js): `findOne({_id, userId: caller})`, then
`name`/`members` updated with `||` fall-back, then `save()` (write-back by
id). -/
def putGroup (caller : String) (db : Db) (id : String)
    (name? : Option String) (members? : Option (List Member)) : Db :=
  match db.groups.find? (fun g => decide (g.id = id) && decide (g.userId = caller)) with
  | none => db
  | some g =>
      let g' := { g with name := jsOrStr name? g.name,
                         members := jsOrMembers members? g.members }
      { db with groups := db.groups.map (fun h => if h.id = g.id then g' else h) }

/-- `DELETE /api/groups/:id` (server.js):
`findOneAndDelete({_id, userId: caller})`. -/
def deleteGroup (caller : String) (db : Db) (id : String) : Db :=
  { db with groups := db.groups.eraseP (fun g => decide (g.id = id) && decide (g.userId = caller)) }

/-- `GET /api/matches` (server.js): `Match.find({userId}).sort({date: -1})`. -/
def getMatches (caller : String) (db : Db) : List MatchRec :=
  List.insertionSort (fun a b => a.date ≥ b.date)
    (db.«matches».filter (fun m => m.userId = caller))

/-- `POST /api/matches` (server.js): `{...req.body, userId: req.user.sub}`. -/
def postMatch (caller : String) (db : Db) (rec : MatchRec) : Db :=
  { db with «matches» := db.«matches» ++ [{ rec with userId := caller }] }

/-- Legacy `GET /api/groups` (part_000): the user id is read from the query
string — the caller chooses it freely. -/
def getGroupsLegacy (userIdQuery : String) (db : Db) : List GroupRec :=
  db.groups.filter (fun g => g.userId = userIdQuery)

/-- Legacy `PUT /api/groups/:id` (part_000):
`findByIdAndUpdate(req.params.id, req.body, {new: true})` — the record is
selected by id only, with no owner filter and no authentication; fields
present in the body replace the stored ones. -/
def putGroupLegacy (db : Db) (id : String) (name? : Option String)
    (members? : Option (List Member)) (userId? : Option String) : Db :=
  match db.groups.find? (fun g => g.id = id) with
  | none => db
  | some g =>
      let g' := { g with name := name?.getD g.name,
                         members := members?.getD g.members,
                         userId := userId?.getD g.userId }
      { db with groups := db.groups.map (fun h => if h.id = g.id then g' else h) }

/-- Legacy `DELETE /api/groups/:id` (part_000): `findByIdAndDelete` — by id
only, no owner filter, no authentication. -/
def deleteGroupLegacy (db : Db) (id : String) : Db :=
  { db with groups := db.groups.eraseP (fun g => g.id = id) }

/-- The records of a group list that belong to users other than `caller`. -/
def othersGroups (caller : String) (l : List GroupRec) : List GroupRec :=
  l.filter (fun g => ¬ g.userId = caller)

/-- The records of a match list that belong to users other than `caller`. -/
def othersMatches (caller : String) (l : List MatchRec) : List MatchRec :=
  l.filter (fun m => ¬ m.userId = caller)

/-! ### Basic facts about the keyed map -/

theorem lookupKey_updateAt_self {β : Type} (k : String) (f : β → β) :
    ∀ s : Stats β, lookupKey (updateAt k f s) k = (lookupKey s k).map f
  | [] => rfl
  | p :: ps => by
    by_cases h : p.1 = k
    · simp [updateAt, lookupKey, h]
    · simp [updateAt, lookupKey, h, lookupKey_updateAt_self k f ps]

theorem lookupKey_updateAt_ne {β : Type} {k k' : String} (f : β → β)
    (hne : k' ≠ k) :
    ∀ s : Stats β, lookupKey (updateAt k f s) k' = lookupKey s k'
  | [] => rfl
  | p :: ps => by
    have hkk' : ¬ k = k' := fun hc => hne hc.symm
    by_cases h : p.1 = k
    · simp [updateAt, lookupKey, h, hkk']
    · by_cases h' : p.1 = k'
      · simp [updateAt, lookupKey, h, h', hne]
      · simp [updateAt, lookupKey, h, h', lookupKey_updateAt_ne f hne ps]

theorem lookupKey_append_of_none {β : Type} {k : String} :
    ∀ {s : Stats β}, lookupKey s k = none → ∀ s' : Stats β,
      lookupKey (s ++ s') k = lookupKey s' k := by
  intro s
  induction s with
  | nil => intro _ s'; rfl
  | cons p ps ih =>
    intro h s'
    by_cases hp : p.1 = k
    · simp [lookupKey, hp] at h
    · simp only [lookupKey, hp, if_false] at h
      simpa [lookupKey, hp] using ih h s'

theorem lookupKey_append_of_some {β : Type} {k : String} {v : β} :
    ∀ {s : Stats β}, lookupKey s k = some v → ∀ s' : Stats β,
      lookupKey (s ++ s') k = some v := by
  intro s
  induction s with
  | nil => intro h; simp [lookupKey] at h
  | cons p ps ih =>
    intro h s'
    by_cases hp : p.1 = k
    · simp only [lookupKey, hp, if_true] at h
      simp [lookupKey, hp, h]
    · simp only [lookupKey, hp, if_false] at h
      simpa [lookupKey, hp] using ih h s'

theorem lookupKey_insertEntry_self {β : Type} (s : Stats β) (k : String) (v : β) :
    lookupKey (insertEntry s k v) k = some ((lookupKey s k).getD v) := by
  unfold insertEntry
  cases h : lookupKey s k with
  | some w => simp [h]
  | none =>
    simp only [h, Option.isSome_none, Bool.false_eq_true, if_false,
      Option.getD_none]
    rw [lookupKey_append_of_none h]
    simp [lookupKey]

theorem lookupKey_insertEntry_ne {β : Type} (s : Stats β) {k : String} (v : β)
    {k' : String} (hne : k' ≠ k) :
    lookupKey (insertEntry s k v) k' = lookupKey s k' := by
  unfold insertEntry
  split
  · rfl
  · cases h : lookupKey s k' with
    | some w => rw [lookupKey_append_of_some h]
    | none =>
      rw [lookupKey_append_of_none h]
      have hkk' : ¬ k = k' := fun hc => hne hc.symm
      simp [lookupKey, hkk', h]

theorem keysOf_updateAt {β : Type} (k : String) (f : β → β) :
    ∀ s : Stats β, keysOf (updateAt k f s) = keysOf s
  | [] => rfl
  | p :: ps => by
    by_cases h : p.1 = k
    · simp [updateAt, keysOf, h]
    · simp [updateAt, keysOf, h]
      exact keysOf_updateAt k f ps

theorem mem_keysOf_iff {β : Type} {k : String} :
    ∀ {s : Stats β}, k ∈ keysOf s ↔ (lookupKey s k).isSome = true := by
  intro s
  induction s with
  | nil => simp [keysOf, lookupKey]
  | cons p ps ih =>
    by_cases h : p.1 = k
    · simp [keysOf, lookupKey, h]
    · have h' : ¬ k = p.1 := fun hc => h hc.symm
      simp only [keysOf, List.map_cons, List.mem_cons, h', false_or,
        lookupKey, h, if_false]
      exact ih

theorem keysOf_insertEntry {β : Type} (s : Stats β) (k : String) (v : β) :
    keysOf (insertEntry s k v) =
      if (lookupKey s k).isSome then keysOf s else keysOf s ++ [k] := by
  unfold insertEntry
  split
  · simp only [*, if_true]
  · simp only [*, if_false, keysOf, List.map_append, List.map_cons, List.map_nil]

theorem mem_keysOf_insertEntry_self {β : Type} (s : Stats β) (k : String)
    (v : β) : k ∈ keysOf (insertEntry s k v) := by
  rw [keysOf_insertEntry]
  split
  · exact mem_keysOf_iff.mpr (by assumption)
  · simp

theorem mem_keysOf_insertEntry_of_mem {β : Type} {s : Stats β} {k' : String}
    (h : k' ∈ keysOf s) (k : String) (v : β) :
    k' ∈ keysOf (insertEntry s k v) := by
  rw [keysOf_insertEntry]
  split <;> simp [h]

theorem lookupKey_mem {β : Type} {k : String} {v : β} :
    ∀ {s : Stats β}, lookupKey s k = some v → (k, v) ∈ s := by
  intro s
  induction s with
  | nil => intro h; simp [lookupKey] at h
  | cons p ps ih =>
    intro h
    by_cases hp : p.1 = k
    · simp only [lookupKey, hp, if_true, Option.some.injEq] at h
      have hpv : p = (k, v) := by
        obtain ⟨a, b⟩ := p
        simp only at hp h
        rw [hp, h]
      rw [← hpv]
      exact List.mem_cons_self p ps
    · simp only [lookupKey, hp, if_false] at h
      exact List.mem_cons_of_mem _ (ih h)

theorem mem_updateAt {β : Type} {k : String} {f : β → β} {p : String × β} :
    ∀ {s : Stats β}, p ∈ updateAt k f s →
      ∃ q ∈ s, p.1 = q.1 ∧ (p.2 = q.2 ∨ p.2 = f q.2) := by
  intro s
  induction s with
  | nil => intro h; simp [updateAt] at h
  | cons q qs ih =>
    intro h
    by_cases hq : q.1 = k
    · simp only [updateAt, hq, if_true, List.mem_cons] at h
      rcases h with h | h
      · exact ⟨q, List.mem_cons_self q qs, by rw [h]; exact hq.symm,
          Or.inr (by rw [h])⟩
      · exact ⟨p, List.mem_cons_of_mem _ h, rfl, Or.inl rfl⟩
    · simp only [updateAt, hq, if_false, List.mem_cons] at h
      rcases h with h | h
      · exact ⟨q, List.mem_cons_self q qs, by rw [h], Or.inl (by rw [h])⟩
      · obtain ⟨q', hq', h1, h2⟩ := ih h
        exact ⟨q', List.mem_cons_of_mem _ hq', h1, h2⟩

theorem mem_updateAt_of_mem {β : Type} (k : String) (f : β → β)
    {p : String × β} :
    ∀ {s : Stats β}, p ∈ s →
      ∃ p' ∈ updateAt k f s, p'.1 = p.1 ∧ (p'.2 = p.2 ∨ p'.2 = f p.2) := by
  intro s
  induction s with
  | nil => intro h; simp at h
  | cons q qs ih =>
    intro h
    rcases List.mem_cons.mp h with h | h
    · subst h
      by_cases hq : p.1 = k
      · exact ⟨(p.1, f p.2), by simp [updateAt, hq], rfl, Or.inr rfl⟩
      · exact ⟨p, by simp [updateAt, hq], rfl, Or.inl rfl⟩
    · by_cases hq : q.1 = k
      · refine ⟨p, ?_, rfl, Or.inl rfl⟩
        simp only [updateAt, hq, if_true]
        exact List.mem_cons_of_mem _ h
      · obtain ⟨p', hp', h1, h2⟩ := ih h
        refine ⟨p', ?_, h1, h2⟩
        simp only [updateAt, hq, if_false]
        exact List.mem_cons_of_mem _ hp'

theorem mem_insertEntry_of_mem {β : Type} {p : String × β} {s : Stats β}
    (h : p ∈ s) (k : String) (v : β) : p ∈ insertEntry s k v := by
  unfold insertEntry
  split
  · exact h
  · exact List.mem_append_left _ h

/-! ### The string order is total, transitive and antisymmetric -/

theorem charListLe_total : ∀ as bs : List Char,
    charListLe as bs = true ∨ charListLe bs as = true := by
  intro as
  induction as with
  | nil => intro bs; left; rfl
  | cons a as ih =>
    intro bs
    cases bs with
    | nil => right; rfl
    | cons b bs =>
      rcases Nat.lt_trichotomy a.toNat b.toNat with h | h | h
      · left; simp [charListLe, h]
      · rcases ih bs with h2 | h2
        · left; simp [charListLe, h, h2]
        · right; simp [charListLe, h.symm, h2]
      · right; simp [charListLe, h]

theorem charListLe_trans : ∀ as bs cs : List Char,
    charListLe as bs = true → charListLe bs cs = true →
      charListLe as cs = true := by
  intro as
  induction as with
  | nil => intro bs cs _ _; rfl
  | cons a as ih =>
    intro bs cs h1 h2
    cases bs with
    | nil => simp [charListLe] at h1
    | cons b bs =>
      cases cs with
      | nil => simp [charListLe] at h2
      | cons c cs =>
        simp only [charListLe, Bool.or_eq_true, Bool.and_eq_true,
          decide_eq_true_eq] at h1 h2 ⊢
        rcases h1 with h1 | ⟨h1e, h1r⟩ <;> rcases h2 with h2 | ⟨h2e, h2r⟩
        · left; omega
        · left; omega
        · left; omega
        · right; exact ⟨by omega, ih bs cs h1r h2r⟩

theorem charListLe_antisymm : ∀ as bs : List Char,
    charListLe as bs = true → charListLe bs as = true → as = bs := by
  intro as
  induction as with
  | nil =>
    intro bs h1 h2
    cases bs with
    | nil => rfl
    | cons b bs => simp [charListLe] at h2
  | cons a as ih =>
    intro bs h1 h2
    cases bs with
    | nil => simp [charListLe] at h1
    | cons b bs =>
      simp only [charListLe, Bool.or_eq_true, Bool.and_eq_true,
        decide_eq_true_eq] at h1 h2
      have hab : a.toNat = b.toNat := by omega
      have : a = b := Char.eq_of_val_eq (UInt32.toNat.inj hab)
      subst this
      rcases h1 with h1 | ⟨_, h1r⟩
      · omega
      · rcases h2 with h2 | ⟨_, h2r⟩
        · omega
        · rw [ih bs h1r h2r]

instance : IsTotal String strLe :=
  ⟨fun a b => charListLe_total a.data b.data⟩

instance : IsTrans String strLe :=
  ⟨fun a b c => charListLe_trans a.data b.data c.data⟩

instance : IsAntisymm String strLe :=
  ⟨fun a b h1 h2 => String.ext (charListLe_antisymm a.data b.data h1 h2)⟩

theorem jsSort_perm (l : List String) : (jsSort l).Perm l :=
  List.perm_insertionSort strLe l

theorem jsSort_sorted (l : List String) : List.Sorted strLe (jsSort l) :=
  List.sorted_insertionSort strLe l

theorem jsSort_eq_of_perm {l₁ l₂ : List String} (h : l₁.Perm l₂) :
    jsSort l₁ = jsSort l₂ :=
  List.eq_of_perm_of_sorted (((jsSort_perm l₁).trans h).trans (jsSort_perm l₂).symm)
    (jsSort_sorted l₁) (jsSort_sorted l₂)

theorem jsSort_idem (l : List String) : jsSort (jsSort l) = jsSort l :=
  (jsSort_sorted l).insertionSort_eq

/-- Rosters that are permutations of each other key identically. -/
theorem teamKey_eq_of_perm {l₁ l₂ : List String} (h : l₁.Perm l₂) :
    teamKey l₁ = teamKey l₂ := by
  unfold teamKey
  rw [jsSort_eq_of_perm h]

theorem teamKey_jsSort (l : List String) : teamKey (jsSort l) = teamKey l := by
  unfold teamKey
  rw [jsSort_idem]

instance : IsTotal TeamStat statLe :=
  ⟨fun a b => by unfold statLe; omega⟩

instance : IsTrans TeamStat statLe :=
  ⟨fun a b c h1 h2 => by unfold statLe at h1 h2 ⊢; omega⟩

/-! ### Sums over the accumulator map -/

/-- The sum of `g` over the values of the map. -/
def sumBy {β : Type} (g : β → Int) : Stats β → Int
  | [] => 0
  | p :: ps => g p.2 + sumBy g ps

theorem sumBy_append {β : Type} (g : β → Int) (s s' : Stats β) :
    sumBy g (s ++ s') = sumBy g s + sumBy g s' := by
  induction s with
  | nil => simp [sumBy]
  | cons p ps ih =>
    simp only [List.cons_append, List.append_eq, sumBy, ih]
    ring

theorem sumBy_insertEntry {β : Type} {g : β → Int} {v : β} (hv : g v = 0)
    (s : Stats β) (k : String) :
    sumBy g (insertEntry s k v) = sumBy g s := by
  unfold insertEntry
  split
  · rfl
  · rw [sumBy_append]
    simp [sumBy, hv]

theorem sumBy_updateAt_congr {β : Type} {g : β → Int} {f : β → β}
    (hf : ∀ a, g (f a) = g a) (k : String) :
    ∀ s : Stats β, sumBy g (updateAt k f s) = sumBy g s
  | [] => rfl
  | p :: ps => by
    by_cases hp : p.1 = k
    · simp [updateAt, hp, sumBy, hf]
    · simp [updateAt, hp, sumBy, sumBy_updateAt_congr hf k ps]

theorem sumBy_updateAt_of_mem {β : Type} {g : β → Int} {f : β → β} {c : Int}
    (hf : ∀ a, g (f a) = g a + c) {k : String} :
    ∀ {s : Stats β}, k ∈ keysOf s →
      sumBy g (updateAt k f s) = sumBy g s + c := by
  intro s
  induction s with
  | nil => intro h; simp [keysOf] at h
  | cons p ps ih =>
    intro h
    by_cases hp : p.1 = k
    · simp only [updateAt, hp, if_true, sumBy, hf]
      ring
    · have h' : k ∈ keysOf ps := by
        have h2 : k = p.1 ∨ k ∈ List.map Prod.fst ps := by
          simpa only [keysOf, List.map_cons, List.mem_cons] using h
        rcases h2 with hc | hc
        · exact absurd hc.symm hp
        · exact hc
      simp only [updateAt, hp, if_false, sumBy, ih h']
      ring

/-! ### Goal totals are tracked exactly by the fold -/

theorem sumGF_updMatches (k : String) (s : Stats TeamAcc) :
    sumBy TeamAcc.goalsFor
      (updateAt k (fun t => { t with «matches» := t.«matches» + 1 }) s) =
      sumBy TeamAcc.goalsFor s := by
  apply sumBy_updateAt_congr
  intro a
  rfl

theorem sumGF_updWins (k : String) (s : Stats TeamAcc) :
    sumBy TeamAcc.goalsFor
      (updateAt k (fun t => { t with wins := t.wins + 1 }) s) =
      sumBy TeamAcc.goalsFor s := by
  apply sumBy_updateAt_congr
  intro a
  rfl

theorem sumGF_updLosses (k : String) (s : Stats TeamAcc) :
    sumBy TeamAcc.goalsFor
      (updateAt k (fun t => { t with losses := t.losses + 1 }) s) =
      sumBy TeamAcc.goalsFor s := by
  apply sumBy_updateAt_congr
  intro a
  rfl

theorem sumGF_updDraws (k : String) (s : Stats TeamAcc) :
    sumBy TeamAcc.goalsFor
      (updateAt k (fun t => { t with draws := t.draws + 1 }) s) =
      sumBy TeamAcc.goalsFor s := by
  apply sumBy_updateAt_congr
  intro a
  rfl

theorem sumGA_updMatches (k : String) (s : Stats TeamAcc) :
    sumBy TeamAcc.goalsAgainst
      (updateAt k (fun t => { t with «matches» := t.«matches» + 1 }) s) =
      sumBy TeamAcc.goalsAgainst s := by
  apply sumBy_updateAt_congr
  intro a
  rfl

theorem sumGA_updWins (k : String) (s : Stats TeamAcc) :
    sumBy TeamAcc.goalsAgainst
      (updateAt k (fun t => { t with wins := t.wins + 1 }) s) =
      sumBy TeamAcc.goalsAgainst s := by
  apply sumBy_updateAt_congr
  intro a
  rfl

theorem sumGA_updLosses (k : String) (s : Stats TeamAcc) :
    sumBy TeamAcc.goalsAgainst
      (updateAt k (fun t => { t with losses := t.losses + 1 }) s) =
      sumBy TeamAcc.goalsAgainst s := by
  apply sumBy_updateAt_congr
  intro a
  rfl

theorem sumGA_updDraws (k : String) (s : Stats TeamAcc) :
    sumBy TeamAcc.goalsAgainst
      (updateAt k (fun t => { t with draws := t.draws + 1 }) s) =
      sumBy TeamAcc.goalsAgainst s := by
  apply sumBy_updateAt_congr
  intro a
  rfl

theorem sumGF_insert (s : Stats TeamAcc) (k : String) (t : List String) :
    sumBy TeamAcc.goalsFor (insertEntry s k (initAcc t)) =
      sumBy TeamAcc.goalsFor s := by
  apply sumBy_insertEntry
  rfl

theorem sumGA_insert (s : Stats TeamAcc) (k : String) (t : List String) :
    sumBy TeamAcc.goalsAgainst (insertEntry s k (initAcc t)) =
      sumBy TeamAcc.goalsAgainst s := by
  apply sumBy_insertEntry
  rfl

theorem sumGF_updGoalsA (m : Match) (k : String) {s : Stats TeamAcc}
    (h : k ∈ keysOf s) :
    sumBy TeamAcc.goalsFor
      (updateAt k (fun t => { t with goalsFor := t.goalsFor + m.scoreA,
                                     goalsAgainst := t.goalsAgainst + m.scoreB }) s) =
      sumBy TeamAcc.goalsFor s + m.scoreA := by
  refine sumBy_updateAt_of_mem ?_ h
  intro a
  rfl

theorem sumGF_updGoalsB (m : Match) (k : String) {s : Stats TeamAcc}
    (h : k ∈ keysOf s) :
    sumBy TeamAcc.goalsFor
      (updateAt k (fun t => { t with goalsFor := t.goalsFor + m.scoreB,
                                     goalsAgainst := t.goalsAgainst + m.scoreA }) s) =
      sumBy TeamAcc.goalsFor s + m.scoreB := by
  refine sumBy_updateAt_of_mem ?_ h
  intro a
  rfl

theorem sumGA_updGoalsA (m : Match) (k : String) {s : Stats TeamAcc}
    (h : k ∈ keysOf s) :
    sumBy TeamAcc.goalsAgainst
      (updateAt k (fun t => { t with goalsFor := t.goalsFor + m.scoreA,
                                     goalsAgainst := t.goalsAgainst + m.scoreB }) s) =
      sumBy TeamAcc.goalsAgainst s + m.scoreB := by
  refine sumBy_updateAt_of_mem ?_ h
  intro a
  rfl

theorem sumGA_updGoalsB (m : Match) (k : String) {s : Stats TeamAcc}
    (h : k ∈ keysOf s) :
    sumBy TeamAcc.goalsAgainst
      (updateAt k (fun t => { t with goalsFor := t.goalsFor + m.scoreB,
                                     goalsAgainst := t.goalsAgainst + m.scoreA }) s) =
      sumBy TeamAcc.goalsAgainst s + m.scoreA := by
  refine sumBy_updateAt_of_mem ?_ h
  intro a
  rfl

theorem sumBy_goalsFor_processMatch (s : Stats TeamAcc) (m : Match) :
    sumBy TeamAcc.goalsFor (processMatch s m) =
      sumBy TeamAcc.goalsFor s + m.scoreA + m.scoreB := by
  simp only [processMatch]
  set kA := String.intercalate "," (jsSort m.teamA) with hkA
  set kB := String.intercalate "," (jsSort m.teamB) with hkB
  set s2 := insertEntry (insertEntry s kA (initAcc (jsSort m.teamA))) kB
    (initAcc (jsSort m.teamB)) with hs2
  have hA2 : kA ∈ keysOf s2 := by
    rw [hs2]
    exact mem_keysOf_insertEntry_of_mem
      (mem_keysOf_insertEntry_self s kA _) kB _
  have hB2 : kB ∈ keysOf s2 := by
    rw [hs2]
    exact mem_keysOf_insertEntry_self _ kB _
  set s3 := updateAt kA (fun t => { t with «matches» := t.«matches» + 1 }) s2
    with hs3
  set s4 := updateAt kB (fun t => { t with «matches» := t.«matches» + 1 }) s3
    with hs4
  have hA4 : kA ∈ keysOf s4 := by
    rw [hs4, keysOf_updateAt, hs3, keysOf_updateAt]
    exact hA2
  set s5 := updateAt kA
    (fun t => { t with goalsFor := t.goalsFor + m.scoreA,
                       goalsAgainst := t.goalsAgainst + m.scoreB }) s4 with hs5
  have hB5 : kB ∈ keysOf s5 := by
    rw [hs5, keysOf_updateAt, hs4, keysOf_updateAt, hs3, keysOf_updateAt]
    exact hB2
  have h6 : sumBy TeamAcc.goalsFor
      (updateAt kB
        (fun t => { t with goalsFor := t.goalsFor + m.scoreB,
                           goalsAgainst := t.goalsAgainst + m.scoreA }) s5) =
      sumBy TeamAcc.goalsFor s + m.scoreA + m.scoreB := by
    rw [sumGF_updGoalsB m kB hB5, hs5, sumGF_updGoalsA m kA hA4,
      hs4, sumGF_updMatches, hs3, sumGF_updMatches, hs2,
      sumGF_insert, sumGF_insert]
  split
  · rw [sumGF_updLosses, sumGF_updWins, h6]
  · split
    · rw [sumGF_updWins, sumGF_updLosses, h6]
    · rw [sumGF_updDraws, sumGF_updDraws, h6]

theorem sumBy_goalsAgainst_processMatch (s : Stats TeamAcc) (m : Match) :
    sumBy TeamAcc.goalsAgainst (processMatch s m) =
      sumBy TeamAcc.goalsAgainst s + m.scoreA + m.scoreB := by
  simp only [processMatch]
  set kA := String.intercalate "," (jsSort m.teamA) with hkA
  set kB := String.intercalate "," (jsSort m.teamB) with hkB
  set s2 := insertEntry (insertEntry s kA (initAcc (jsSort m.teamA))) kB
    (initAcc (jsSort m.teamB)) with hs2
  have hA2 : kA ∈ keysOf s2 := by
    rw [hs2]
    exact mem_keysOf_insertEntry_of_mem
      (mem_keysOf_insertEntry_self s kA _) kB _
  have hB2 : kB ∈ keysOf s2 := by
    rw [hs2]
    exact mem_keysOf_insertEntry_self _ kB _
  set s3 := updateAt kA (fun t => { t with «matches» := t.«matches» + 1 }) s2
    with hs3
  set s4 := updateAt kB (fun t => { t with «matches» := t.«matches» + 1 }) s3
    with hs4
  have hA4 : kA ∈ keysOf s4 := by
    rw [hs4, keysOf_updateAt, hs3, keysOf_updateAt]
    exact hA2
  set s5 := updateAt kA
    (fun t => { t with goalsFor := t.goalsFor + m.scoreA,
                       goalsAgainst := t.goalsAgainst + m.scoreB }) s4 with hs5
  have hB5 : kB ∈ keysOf s5 := by
    rw [hs5, keysOf_updateAt, hs4, keysOf_updateAt, hs3, keysOf_updateAt]
    exact hB2
  have h6 : sumBy TeamAcc.goalsAgainst
      (updateAt kB
        (fun t => { t with goalsFor := t.goalsFor + m.scoreB,
                           goalsAgainst := t.goalsAgainst + m.scoreA }) s5) =
      sumBy TeamAcc.goalsAgainst s + m.scoreA + m.scoreB := by
    rw [sumGA_updGoalsB m kB hB5, hs5, sumGA_updGoalsA m kA hA4,
      hs4, sumGA_updMatches, hs3, sumGA_updMatches, hs2,
      sumGA_insert, sumGA_insert]
    ring
  split
  · rw [sumGA_updLosses, sumGA_updWins, h6]
  · split
    · rw [sumGA_updWins, sumGA_updLosses, h6]
    · rw [sumGA_updDraws, sumGA_updDraws, h6]

/-- The total number of goals scored in a match list. -/
def totalGoals : List Match → Int
  | [] => 0
  | m :: ms => m.scoreA + m.scoreB + totalGoals ms

theorem sumBy_goalsFor_foldl :
    ∀ (ms : List Match) (s : Stats TeamAcc),
      sumBy TeamAcc.goalsFor (ms.foldl processMatch s) =
        sumBy TeamAcc.goalsFor s + totalGoals ms
  | [], s => by simp [totalGoals]
  | m :: ms, s => by
    simp only [List.foldl_cons, totalGoals,
      sumBy_goalsFor_foldl ms (processMatch s m), sumBy_goalsFor_processMatch]
    ring

theorem sumBy_goalsAgainst_foldl :
    ∀ (ms : List Match) (s : Stats TeamAcc),
      sumBy TeamAcc.goalsAgainst (ms.foldl processMatch s) =
        sumBy TeamAcc.goalsAgainst s + totalGoals ms
  | [], s => by simp [totalGoals]
  | m :: ms, s => by
    simp only [List.foldl_cons, totalGoals,
      sumBy_goalsAgainst_foldl ms (processMatch s m),
      sumBy_goalsAgainst_processMatch]
    ring

theorem sum_map_finalize_goalsFor (s : Stats TeamAcc) :
    ((s.map (fun p => finalize p.2)).map TeamStat.goalsFor).sum =
      sumBy TeamAcc.goalsFor s := by
  induction s with
  | nil => rfl
  | cons p ps ih =>
    simp only [List.map_cons, List.sum_cons, ih, sumBy]
    rfl

theorem sum_map_finalize_goalsAgainst (s : Stats TeamAcc) :
    ((s.map (fun p => finalize p.2)).map TeamStat.goalsAgainst).sum =
      sumBy TeamAcc.goalsAgainst s := by
  induction s with
  | nil => rfl
  | cons p ps ih =>
    simp only [List.map_cons, List.sum_cons, ih, sumBy]
    rfl

/-- Claim C9: for every input match list, the sum of `goalsFor` over all
returned entries equals the sum of `goalsAgainst` over all entries (goals are
conserved): every match contributes `scoreA + scoreB` to both totals. -/
theorem goalsFor_sum_eq_goalsAgainst_sum (ms : List Match) :
    ((calculateTeamStats ms).map TeamStat.goalsFor).sum =
      ((calculateTeamStats ms).map TeamStat.goalsAgainst).sum := by
  unfold calculateTeamStats
  have hperm := List.perm_insertionSort statLe
    ((ms.foldl processMatch []).map (fun p => finalize p.2))
  rw [(hperm.map TeamStat.goalsFor).sum_eq,
    (hperm.map TeamStat.goalsAgainst).sum_eq,
    sum_map_finalize_goalsFor, sum_map_finalize_goalsAgainst,
    sumBy_goalsFor_foldl, sumBy_goalsAgainst_foldl]
  rfl

/-! ### Derived fields and output order -/

/-- Claim C3: every entry returned by `calculateTeamStats` satisfies
`points = 3*wins + draws` and `goalDifference = goalsFor - goalsAgainst`;
both fields are computed in the final `map` (lines 451-455). -/
theorem points_goalDifference_derived (ms : List Match) (e : TeamStat)
    (he : e ∈ calculateTeamStats ms) :
    e.points = 3 * e.wins + e.draws ∧
      e.goalDifference = e.goalsFor - e.goalsAgainst := by
  unfold calculateTeamStats at he
  rw [List.mem_insertionSort] at he
  obtain ⟨p, hp, rfl⟩ := List.mem_map.mp he
  constructor
  · show p.2.wins * 3 + p.2.draws = 3 * p.2.wins + p.2.draws
    ring
  · rfl

/-- Sample match for witnesses: spec Scenario B. -/
def wMatch1 : Match := ⟨["Alice", "Bob"], ["Cara", "Dan"], 3, 1⟩

/-- The winning entry `calculateTeamStats [wMatch1]` produces. -/
def wStat1 : TeamStat := ⟨["Alice", "Bob"], 1, 0, 0, 3, 1, 1, 3, 2⟩

theorem points_goalDifference_derived_witness :
    wStat1 ∈ calculateTeamStats [wMatch1] ∧
      (wStat1.points = 3 * wStat1.wins + wStat1.draws ∧
        wStat1.goalDifference = wStat1.goalsFor - wStat1.goalsAgainst) :=
  ⟨by decide, points_goalDifference_derived [wMatch1] wStat1 (by decide)⟩

/-- Claim C4: the returned sequence is sorted — for adjacent entries,
either the `points` strictly decrease, or they tie and the
`goalDifference` does not increase. -/
theorem calculateTeamStats_sorted (ms : List Match) (i : Nat)
    (h : i + 1 < (calculateTeamStats ms).length) :
    ((calculateTeamStats ms).get ⟨i, by omega⟩).points >
        ((calculateTeamStats ms).get ⟨i + 1, h⟩).points ∨
      (((calculateTeamStats ms).get ⟨i, by omega⟩).points =
          ((calculateTeamStats ms).get ⟨i + 1, h⟩).points ∧
        ((calculateTeamStats ms).get ⟨i, by omega⟩).goalDifference ≥
          ((calculateTeamStats ms).get ⟨i + 1, h⟩).goalDifference) := by
  have hs : List.Sorted statLe (calculateTeamStats ms) :=
    List.sorted_insertionSort statLe _
  exact List.pairwise_iff_get.mp hs ⟨i, by omega⟩ ⟨i + 1, h⟩
    (Fin.mk_lt_mk.mpr (Nat.lt_succ_self i))

theorem calculateTeamStats_sorted_witness :
    0 + 1 < (calculateTeamStats [wMatch1]).length ∧
      (((calculateTeamStats [wMatch1]).get ⟨0, by decide⟩).points >
          ((calculateTeamStats [wMatch1]).get ⟨0 + 1, by decide⟩).points ∨
        (((calculateTeamStats [wMatch1]).get ⟨0, by decide⟩).points =
            ((calculateTeamStats [wMatch1]).get ⟨0 + 1, by decide⟩).points ∧
          ((calculateTeamStats [wMatch1]).get ⟨0, by decide⟩).goalDifference ≥
            ((calculateTeamStats [wMatch1]).get ⟨0 + 1, by decide⟩).goalDifference)) :=
  ⟨by decide, calculateTeamStats_sorted [wMatch1] 0 (by decide)⟩

/-! ### One entry per distinct key -/

/-- Key accumulation: append a key unless already present. -/
def insKey (ks : List String) (k : String) : List String :=
  if k ∈ ks then ks else ks ++ [k]

theorem keysOf_insertEntry_eq_insKey {β : Type} (s : Stats β) (k : String)
    (v : β) : keysOf (insertEntry s k v) = insKey (keysOf s) k := by
  rw [keysOf_insertEntry, insKey]
  by_cases h : k ∈ keysOf s
  · rw [if_pos (mem_keysOf_iff.mp h), if_pos h]
  · rw [if_neg, if_neg h]
    intro hc
    exact h (mem_keysOf_iff.mpr hc)

theorem keysOf_processMatch (s : Stats TeamAcc) (m : Match) :
    keysOf (processMatch s m) =
      insKey (insKey (keysOf s) (teamKey m.teamA)) (teamKey m.teamB) := by
  simp only [processMatch]
  split
  · rw [keysOf_updateAt, keysOf_updateAt, keysOf_updateAt, keysOf_updateAt,
      keysOf_updateAt, keysOf_updateAt, keysOf_insertEntry_eq_insKey,
      keysOf_insertEntry_eq_insKey]
    rfl
  · split
    · rw [keysOf_updateAt, keysOf_updateAt, keysOf_updateAt, keysOf_updateAt,
        keysOf_updateAt, keysOf_updateAt, keysOf_insertEntry_eq_insKey,
        keysOf_insertEntry_eq_insKey]
      rfl
    · rw [keysOf_updateAt, keysOf_updateAt, keysOf_updateAt, keysOf_updateAt,
        keysOf_updateAt, keysOf_updateAt, keysOf_insertEntry_eq_insKey,
        keysOf_insertEntry_eq_insKey]
      rfl

theorem insKey_nodup {ks : List String} {k : String} (h : ks.Nodup) :
    (insKey ks k).Nodup := by
  unfold insKey
  split
  · exact h
  · rename_i hmem
    simp [List.nodup_append, h, hmem]

theorem insKey_toFinset (ks : List String) (k : String) :
    (insKey ks k).toFinset = insert k ks.toFinset := by
  unfold insKey
  split
  · rename_i hmem
    rw [Finset.insert_eq_self.mpr (List.mem_toFinset.mpr hmem)]
  · simp [List.toFinset_append, Finset.insert_eq, Finset.union_comm]

theorem keys_foldl_insKey :
    ∀ (L : List String) (ks : List String), ks.Nodup →
      (L.foldl insKey ks).Nodup ∧
        (L.foldl insKey ks).toFinset = ks.toFinset ∪ L.toFinset
  | [], ks => fun h => ⟨h, by simp⟩
  | k :: L, ks => fun h => by
    obtain ⟨h1, h2⟩ := keys_foldl_insKey L (insKey ks k) (insKey_nodup h)
    refine ⟨h1, ?_⟩
    show (L.foldl insKey (insKey ks k)).toFinset =
      ks.toFinset ∪ (k :: L).toFinset
    rw [h2, insKey_toFinset]
    ext x
    simp [or_assoc]

theorem keysOf_foldl_processMatch :
    ∀ (ms : List Match) (s : Stats TeamAcc),
      keysOf (ms.foldl processMatch s) = (allKeys ms).foldl insKey (keysOf s)
  | [], s => rfl
  | m :: ms, s => by
    simp only [List.foldl_cons, allKeys]
    rw [keysOf_foldl_processMatch ms, keysOf_processMatch]

/-- Claim C2: the output has exactly one entry per distinct team-identity
key occurring among all `teamA`/`teamB` occurrences, where the key of a
roster is the comma-join of its sorted member names; in particular rosters
that are permutations of each other map to the same entry. -/
theorem one_entry_per_key (ms : List Match) :
    (calculateTeamStats ms).length = (allKeys ms).toFinset.card ∧
      ∀ l₁ l₂ : List String, l₁.Perm l₂ → teamKey l₁ = teamKey l₂ := by
  constructor
  · unfold calculateTeamStats
    rw [(List.perm_insertionSort statLe _).length_eq, List.length_map]
    have hlen : (ms.foldl processMatch []).length =
        (keysOf (ms.foldl processMatch [])).length := by
      simp [keysOf]
    rw [hlen, keysOf_foldl_processMatch]
    obtain ⟨hnd, hfs⟩ :=
      keys_foldl_insKey (allKeys ms) (keysOf ([] : Stats TeamAcc)) List.nodup_nil
    rw [← List.toFinset_card_of_nodup hnd, hfs]
    simp [keysOf]
  · intro l₁ l₂ h
    exact teamKey_eq_of_perm h

/-! ### The per-match update rule -/

theorem teamKey_def (l : List String) :
    String.intercalate "," (jsSort l) = teamKey l := rfl

/-- Keys other than the two the match references are untouched. -/
theorem processMatch_frame (s : Stats TeamAcc) (m : Match) :
    ∀ k, k ≠ teamKey m.teamA → k ≠ teamKey m.teamB →
      lookupKey (processMatch s m) k = lookupKey s k := by
  intro k h1 h2
  simp only [processMatch, teamKey_def]
  split
  · rw [lookupKey_updateAt_ne _ h2, lookupKey_updateAt_ne _ h1,
      lookupKey_updateAt_ne _ h2, lookupKey_updateAt_ne _ h1,
      lookupKey_updateAt_ne _ h2, lookupKey_updateAt_ne _ h1,
      lookupKey_insertEntry_ne _ _ h2, lookupKey_insertEntry_ne _ _ h1]
  · split
    · rw [lookupKey_updateAt_ne _ h2, lookupKey_updateAt_ne _ h1,
        lookupKey_updateAt_ne _ h2, lookupKey_updateAt_ne _ h1,
        lookupKey_updateAt_ne _ h2, lookupKey_updateAt_ne _ h1,
        lookupKey_insertEntry_ne _ _ h2, lookupKey_insertEntry_ne _ _ h1]
    · rw [lookupKey_updateAt_ne _ h2, lookupKey_updateAt_ne _ h1,
        lookupKey_updateAt_ne _ h2, lookupKey_updateAt_ne _ h1,
        lookupKey_updateAt_ne _ h2, lookupKey_updateAt_ne _ h1,
        lookupKey_insertEntry_ne _ _ h2, lookupKey_insertEntry_ne _ _ h1]

/-- Claim C1: when the two identities a match references are distinct, each
receives the per-match update exactly once: both `matches` counts grow by 1;
teamA's entry gains `scoreA` on `goalsFor` and `scoreB` on `goalsAgainst`
while teamB's gains the reverse; the win/loss/draw counters move exactly as
the score comparison dictates (the `if · then 1 else 0` form packages the
three conditional sentences of the claim together with the fact that no
other counter moves); and no other key's entry changes.  (The coinciding-key
edge case is the subject of C10.) -/
theorem processMatch_per_match_update (s : Stats TeamAcc) (m : Match)
    (hAB : teamKey m.teamA ≠ teamKey m.teamB) :
    ((accOf (processMatch s m) (teamKey m.teamA)).«matches» =
        (accOf s (teamKey m.teamA)).«matches» + 1 ∧
      (accOf (processMatch s m) (teamKey m.teamA)).goalsFor =
        (accOf s (teamKey m.teamA)).goalsFor + m.scoreA ∧
      (accOf (processMatch s m) (teamKey m.teamA)).goalsAgainst =
        (accOf s (teamKey m.teamA)).goalsAgainst + m.scoreB ∧
      (accOf (processMatch s m) (teamKey m.teamA)).wins =
        (accOf s (teamKey m.teamA)).wins +
          (if m.scoreA > m.scoreB then 1 else 0) ∧
      (accOf (processMatch s m) (teamKey m.teamA)).losses =
        (accOf s (teamKey m.teamA)).losses +
          (if m.scoreA < m.scoreB then 1 else 0) ∧
      (accOf (processMatch s m) (teamKey m.teamA)).draws =
        (accOf s (teamKey m.teamA)).draws +
          (if m.scoreA = m.scoreB then 1 else 0)) ∧
    ((accOf (processMatch s m) (teamKey m.teamB)).«matches» =
        (accOf s (teamKey m.teamB)).«matches» + 1 ∧
      (accOf (processMatch s m) (teamKey m.teamB)).goalsFor =
        (accOf s (teamKey m.teamB)).goalsFor + m.scoreB ∧
      (accOf (processMatch s m) (teamKey m.teamB)).goalsAgainst =
        (accOf s (teamKey m.teamB)).goalsAgainst + m.scoreA ∧
      (accOf (processMatch s m) (teamKey m.teamB)).wins =
        (accOf s (teamKey m.teamB)).wins +
          (if m.scoreA < m.scoreB then 1 else 0) ∧
      (accOf (processMatch s m) (teamKey m.teamB)).losses =
        (accOf s (teamKey m.teamB)).losses +
          (if m.scoreA > m.scoreB then 1 else 0) ∧
      (accOf (processMatch s m) (teamKey m.teamB)).draws =
        (accOf s (teamKey m.teamB)).draws +
          (if m.scoreA = m.scoreB then 1 else 0)) ∧
    (∀ k, k ≠ teamKey m.teamA → k ≠ teamKey m.teamB →
      lookupKey (processMatch s m) k = lookupKey s k) := by
  have hBA : teamKey m.teamB ≠ teamKey m.teamA := fun hc => hAB hc.symm
  rcases lt_trichotomy m.scoreA m.scoreB with hlt | heq | hgt
  · have h1 : ¬ m.scoreA > m.scoreB := by omega
    have h2 : ¬ m.scoreA = m.scoreB := by omega
    refine ⟨⟨?_, ?_, ?_, ?_, ?_, ?_⟩, ⟨?_, ?_, ?_, ?_, ?_, ?_⟩,
      processMatch_frame s m⟩ <;>
    · unfold accOf
      simp only [processMatch, teamKey_def, if_neg h1, if_pos hlt]
      cases hoA : lookupKey s (teamKey m.teamA) <;>
        cases hoB : lookupKey s (teamKey m.teamB) <;>
        simp [lookupKey_updateAt_self, lookupKey_updateAt_ne,
          lookupKey_insertEntry_self, lookupKey_insertEntry_ne,
          hAB, hBA, hoA, hoB, initAcc, h1, h2, hlt]
  · have h1 : ¬ m.scoreA > m.scoreB := by omega
    have h2 : ¬ m.scoreA < m.scoreB := by omega
    refine ⟨⟨?_, ?_, ?_, ?_, ?_, ?_⟩, ⟨?_, ?_, ?_, ?_, ?_, ?_⟩,
      processMatch_frame s m⟩ <;>
    · unfold accOf
      simp only [processMatch, teamKey_def, if_neg h1, if_neg h2]
      cases hoA : lookupKey s (teamKey m.teamA) <;>
        cases hoB : lookupKey s (teamKey m.teamB) <;>
        simp [lookupKey_updateAt_self, lookupKey_updateAt_ne,
          lookupKey_insertEntry_self, lookupKey_insertEntry_ne,
          hAB, hBA, hoA, hoB, initAcc, h1, h2, heq]
  · have h1 : ¬ m.scoreA < m.scoreB := by omega
    have h2 : ¬ m.scoreA = m.scoreB := by omega
    refine ⟨⟨?_, ?_, ?_, ?_, ?_, ?_⟩, ⟨?_, ?_, ?_, ?_, ?_, ?_⟩,
      processMatch_frame s m⟩ <;>
    · unfold accOf
      simp only [processMatch, teamKey_def, if_pos hgt]
      cases hoA : lookupKey s (teamKey m.teamA) <;>
        cases hoB : lookupKey s (teamKey m.teamB) <;>
        simp [lookupKey_updateAt_self, lookupKey_updateAt_ne,
          lookupKey_insertEntry_self, lookupKey_insertEntry_ne,
          hAB, hBA, hoA, hoB, initAcc, h1, h2, hgt]

theorem processMatch_per_match_update_witness :
    teamKey wMatch1.teamA ≠ teamKey wMatch1.teamB ∧
      (accOf (processMatch [] wMatch1) (teamKey wMatch1.teamA)).«matches» =
        (accOf ([] : Stats TeamAcc) (teamKey wMatch1.teamA)).«matches» + 1 ∧
      (accOf (processMatch [] wMatch1) (teamKey wMatch1.teamB)).«matches» =
        (accOf ([] : Stats TeamAcc) (teamKey wMatch1.teamB)).«matches» + 1 :=
  ⟨by decide,
    (processMatch_per_match_update [] wMatch1 (by decide)).1.1,
    (processMatch_per_match_update [] wMatch1 (by decide)).2.1.1⟩

/-- Sample match whose two sides have the same identity key. -/
def wMatch2 : Match := ⟨["a"], ["a"], 2, 1⟩

/-- Claim C10: when `teamA` and `teamB` key identically, the computation
does not crash (the embedding is total and the entry is well defined): both
per-side updates land on the single shared entry, whose `matches` count
grows by 2, which gains `scoreA + scoreB` on both `goalsFor` and
`goalsAgainst`, and which receives a win and a loss on a decisive score or
two draws on a tie; every other key is untouched. -/
theorem processMatch_coinciding_keys (s : Stats TeamAcc) (m : Match)
    (hk : teamKey m.teamA = teamKey m.teamB) :
    (accOf (processMatch s m) (teamKey m.teamA)).«matches» =
        (accOf s (teamKey m.teamA)).«matches» + 2 ∧
      (accOf (processMatch s m) (teamKey m.teamA)).goalsFor =
        (accOf s (teamKey m.teamA)).goalsFor + m.scoreA + m.scoreB ∧
      (accOf (processMatch s m) (teamKey m.teamA)).goalsAgainst =
        (accOf s (teamKey m.teamA)).goalsAgainst + m.scoreA + m.scoreB ∧
      (m.scoreA ≠ m.scoreB →
        (accOf (processMatch s m) (teamKey m.teamA)).wins =
            (accOf s (teamKey m.teamA)).wins + 1 ∧
          (accOf (processMatch s m) (teamKey m.teamA)).losses =
            (accOf s (teamKey m.teamA)).losses + 1 ∧
          (accOf (processMatch s m) (teamKey m.teamA)).draws =
            (accOf s (teamKey m.teamA)).draws) ∧
      (m.scoreA = m.scoreB →
        (accOf (processMatch s m) (teamKey m.teamA)).draws =
            (accOf s (teamKey m.teamA)).draws + 2 ∧
          (accOf (processMatch s m) (teamKey m.teamA)).wins =
            (accOf s (teamKey m.teamA)).wins ∧
          (accOf (processMatch s m) (teamKey m.teamA)).losses =
            (accOf s (teamKey m.teamA)).losses) ∧
      (∀ k, k ≠ teamKey m.teamA →
        lookupKey (processMatch s m) k = lookupKey s k) := by
  rcases lt_trichotomy m.scoreA m.scoreB with hlt | heq | hgt
  · have h1 : ¬ m.scoreA > m.scoreB := by omega
    have h2 : ¬ m.scoreA = m.scoreB := by omega
    refine ⟨?_, ?_, ?_, fun hne => ⟨?_, ?_, ?_⟩,
      fun he => absurd he h2, fun k h => processMatch_frame s m k h (hk ▸ h)⟩ <;>
    · unfold accOf
      simp only [processMatch, teamKey_def, if_neg h1, if_pos hlt]
      rw [← hk]
      cases hoA : lookupKey s (teamKey m.teamA) <;>
        simp [lookupKey_updateAt_self, lookupKey_insertEntry_self,
          hoA, initAcc] <;>
        omega
  · refine ⟨?_, ?_, ?_, fun hne => absurd heq hne, fun he => ⟨?_, ?_, ?_⟩,
      fun k h => processMatch_frame s m k h (hk ▸ h)⟩ <;>
    · unfold accOf
      simp only [processMatch, teamKey_def, if_neg (by omega : ¬ m.scoreA > m.scoreB),
        if_neg (by omega : ¬ m.scoreA < m.scoreB)]
      rw [← hk]
      cases hoA : lookupKey s (teamKey m.teamA) <;>
        simp [lookupKey_updateAt_self, lookupKey_insertEntry_self,
          hoA, initAcc] <;>
        omega
  · have h1 : ¬ m.scoreA < m.scoreB := by omega
    have h2 : ¬ m.scoreA = m.scoreB := by omega
    refine ⟨?_, ?_, ?_, fun hne => ⟨?_, ?_, ?_⟩,
      fun he => absurd he h2, fun k h => processMatch_frame s m k h (hk ▸ h)⟩ <;>
    · unfold accOf
      simp only [processMatch, teamKey_def, if_pos hgt]
      rw [← hk]
      cases hoA : lookupKey s (teamKey m.teamA) <;>
        simp [lookupKey_updateAt_self, lookupKey_insertEntry_self,
          hoA, initAcc] <;>
        omega

theorem processMatch_coinciding_keys_witness :
    teamKey wMatch2.teamA = teamKey wMatch2.teamB ∧
      (accOf (processMatch [] wMatch2) (teamKey wMatch2.teamA)).«matches» =
        (accOf ([] : Stats TeamAcc) (teamKey wMatch2.teamA)).«matches» + 2 ∧
      (accOf (processMatch [] wMatch2) (teamKey wMatch2.teamA)).wins =
        (accOf ([] : Stats TeamAcc) (teamKey wMatch2.teamA)).wins + 1 :=
  ⟨by decide,
    (processMatch_coinciding_keys [] wMatch2 (by decide)).1,
    ((processMatch_coinciding_keys [] wMatch2 (by decide)).2.2.2.1
      (by decide)).1⟩

theorem one_entry_per_key_witness :
    (calculateTeamStats [wMatch1]).length = (allKeys [wMatch1]).toFinset.card ∧
      teamKey ["Bob", "Alice"] = teamKey ["Alice", "Bob"] :=
  ⟨(one_entry_per_key [wMatch1]).1,
    (one_entry_per_key [wMatch1]).2 ["Bob", "Alice"] ["Alice", "Bob"]
      (List.Perm.swap "Alice" "Bob" [])⟩

/-! ### The displayed `team` field

Because `match.teamA.sort()` sorts the stored array in place before
`team: match.teamA` captures it (lines 400-406), the `team` field holds the
SORTED roster of the first record encountered for the key — not the roster
in its original stored order. -/

/-- A match whose `teamA` is stored out of sorted order. -/
def cMatch5 : Match := ⟨["b", "a"], ["c"], 1, 0⟩

/-- Counterexample to claim C5 as stated: for the single match with
`teamA = ["b","a"]`, the returned `team` fields are `["a","b"]` and `["c"]`;
the original stored order `["b","a"]` appears nowhere. -/
theorem team_field_not_original_order :
    (calculateTeamStats [cMatch5]).map TeamStat.team = [["a", "b"], ["c"]] ∧
      ["b", "a"] ∉ (calculateTeamStats [cMatch5]).map TeamStat.team := by
  decide

/-- Invariant tying each entry to the first roster encountered for its key:
every entry's `team` field is the sorted form of that roster, and every
roster processed so far already has its key in the map. -/
def entryInv (R : List (List String)) (s : Stats TeamAcc) : Prop :=
  (∀ p ∈ s, ∃ l, R.find? (fun l => teamKey l = p.1) = some l ∧
    p.2.team = jsSort l) ∧
  (∀ l ∈ R, teamKey l ∈ keysOf s)

theorem entryInv_updateAt {R : List (List String)} {s : Stats TeamAcc}
    {k : String} {f : TeamAcc → TeamAcc} (hf : ∀ a, (f a).team = a.team)
    (h : entryInv R s) : entryInv R (updateAt k f s) := by
  constructor
  · intro p hp
    obtain ⟨q, hq, h1, h2⟩ := mem_updateAt hp
    obtain ⟨l, hl1, hl2⟩ := h.1 q hq
    refine ⟨l, ?_, ?_⟩
    · rw [h1]
      exact hl1
    · rcases h2 with h2 | h2
      · rw [h2, hl2]
      · rw [h2, hf, hl2]
  · intro l hl
    rw [keysOf_updateAt]
    exact h.2 l hl

theorem entryInv_insertEntry {R : List (List String)} {s : Stats TeamAcc}
    (l : List String) (h : entryInv R s) :
    entryInv (R ++ [l]) (insertEntry s (teamKey l) (initAcc (jsSort l))) := by
  constructor
  · intro p hp
    unfold insertEntry at hp
    split at hp
    · obtain ⟨l', h1, h2⟩ := h.1 p hp
      refine ⟨l', ?_, h2⟩
      rw [List.find?_append, h1]
      rfl
    · rename_i hcond
      rcases List.mem_append.mp hp with hp | hp
      · obtain ⟨l', h1, h2⟩ := h.1 p hp
        refine ⟨l', ?_, h2⟩
        rw [List.find?_append, h1]
        rfl
      · have hp' : p = (teamKey l, initAcc (jsSort l)) := by simpa using hp
        subst hp'
        refine ⟨l, ?_, rfl⟩
        show (R ++ [l]).find? (fun l' => teamKey l' = teamKey l) = some l
        have hnone : R.find? (fun l' => teamKey l' = teamKey l) = none := by
          rw [List.find?_eq_none]
          intro x hx hpx
          have hxl : teamKey x = teamKey l := of_decide_eq_true hpx
          have hmem := h.2 x hx
          rw [hxl] at hmem
          exact hcond (mem_keysOf_iff.mp hmem)
        rw [List.find?_append, hnone]
        simp [List.find?]
  · intro l' hl'
    rcases List.mem_append.mp hl' with hl' | hl'
    · exact mem_keysOf_insertEntry_of_mem (h.2 l' hl') _ _
    · have : l' = l := by simpa using hl'
      subst this
      exact mem_keysOf_insertEntry_self s (teamKey l') _

theorem entryInv_processMatch {R : List (List String)} {s : Stats TeamAcc}
    (m : Match) (h : entryInv R s) :
    entryInv (R ++ [m.teamA, m.teamB]) (processMatch s m) := by
  have h1 := entryInv_insertEntry m.teamA h
  have h2 := entryInv_insertEntry m.teamB h1
  rw [List.append_assoc] at h2
  simp only [List.singleton_append] at h2
  simp only [processMatch, teamKey_def]
  split
  · exact entryInv_updateAt (fun a => rfl) (entryInv_updateAt (fun a => rfl)
      (entryInv_updateAt (fun a => rfl) (entryInv_updateAt (fun a => rfl)
        (entryInv_updateAt (fun a => rfl)
          (entryInv_updateAt (fun a => rfl) h2)))))
  · split
    · exact entryInv_updateAt (fun a => rfl) (entryInv_updateAt (fun a => rfl)
        (entryInv_updateAt (fun a => rfl) (entryInv_updateAt (fun a => rfl)
          (entryInv_updateAt (fun a => rfl)
            (entryInv_updateAt (fun a => rfl) h2)))))
    · exact entryInv_updateAt (fun a => rfl) (entryInv_updateAt (fun a => rfl)
        (entryInv_updateAt (fun a => rfl) (entryInv_updateAt (fun a => rfl)
          (entryInv_updateAt (fun a => rfl)
            (entryInv_updateAt (fun a => rfl) h2)))))

theorem entryInv_foldl :
    ∀ (ms : List Match) (R : List (List String)) (s : Stats TeamAcc),
      entryInv R s → entryInv (R ++ rosters ms) (ms.foldl processMatch s)
  | [], R, s, h => by simpa [rosters] using h
  | m :: ms, R, s, h => by
    have hstep := entryInv_foldl ms (R ++ [m.teamA, m.teamB])
      (processMatch s m) (entryInv_processMatch m h)
    simpa [rosters, List.append_assoc] using hstep

/-- Claim C5, amended: the `team` field of every returned entry is the
SORTED member-name sequence of the first match record encountered for its
key (the in-place `.sort()` reorders the roster before it is stored), not
the roster's original stored order. -/
theorem team_field_is_sorted_first_roster (ms : List Match) (e : TeamStat)
    (he : e ∈ calculateTeamStats ms) :
    ∃ l, firstRoster ms (teamKey e.team) = some l ∧ e.team = jsSort l := by
  have hinv : entryInv (rosters ms) (ms.foldl processMatch []) := by
    have hbase : entryInv [] ([] : Stats TeamAcc) := by
      constructor
      · intro p hp
        simp at hp
      · intro l hl
        simp at hl
    have := entryInv_foldl ms [] [] hbase
    simpa using this
  unfold calculateTeamStats at he
  rw [List.mem_insertionSort] at he
  obtain ⟨p, hp, rfl⟩ := List.mem_map.mp he
  obtain ⟨l, hl1, hl2⟩ := hinv.1 p hp
  have hkey : teamKey l = p.1 := by
    have hfind := List.find?_some hl1
    simpa using hfind
  have hteam : (finalize p.2).team = p.2.team := rfl
  refine ⟨l, ?_, by rw [hteam, hl2]⟩
  unfold firstRoster
  simp only [hteam, hl2, teamKey_jsSort, hkey]
  exact hl1

theorem team_field_is_sorted_first_roster_witness :
    (⟨["a", "b"], 1, 0, 0, 1, 0, 1, 3, 1⟩ : TeamStat) ∈
        calculateTeamStats [cMatch5] ∧
      ∃ l, firstRoster [cMatch5]
          (teamKey (⟨["a", "b"], 1, 0, 0, 1, 0, 1, 3, 1⟩ : TeamStat).team) =
            some l ∧
        (⟨["a", "b"], 1, 0, 0, 1, 0, 1, 3, 1⟩ : TeamStat).team = jsSort l :=
  ⟨by decide, team_field_is_sorted_first_roster [cMatch5] _ (by decide)⟩

/-! ### Mutation of the input -/

/-- A match with an unsorted `teamA` and a tied score. -/
def cMatch6 : Match := ⟨["b", "a"], ["c"], 2, 2⟩

/-- Claim C6 concerns purity: `calculateTeamStats` in fact mutates its
input — after the call the first match's `teamA` array has been reordered
in place to `["a","b"]`, so the post-call match list differs from the
pre-call one. -/
theorem calculateTeamStats_mutates_input :
    matchesAfter [cMatch6] = [⟨["a", "b"], ["c"], 2, 2⟩] ∧
      matchesAfter [cMatch6] ≠ [cMatch6] := by
  decide

/-! ### No fail-fast on malformed scores -/

/-- A match with an absent (`undefined`) `scoreA`. -/
def cMatch7 : MatchJs := ⟨["a"], ["a"], none, some 1⟩

/-- Counterexample to claim C7 as stated: `calculateTeamStats` has no
validation and no error path; on a match with an absent score it returns
normally, with `goalsFor`, `goalsAgainst` and `goalDifference` NaN-poisoned
(and the match tallied as a draw, since `NaN > x` and `NaN < x` are both
false). -/
theorem no_fail_fast_on_missing_score :
    calculateTeamStatsJs [cMatch7] =
      [⟨["a"], 0, 0, 2, none, none, 2, 2, none⟩] := by
  decide

theorem jsAdd_poison_left (x : Option Int) : jsAdd none x = none := by
  cases x <;> rfl

theorem jsAdd_poison_right (x : Option Int) : jsAdd x none = none := by
  cases x <;> rfl

theorem poisoned_updateAt_exists {s : Stats TeamAccJs} {k : String}
    {f : TeamAccJs → TeamAccJs} (hf : ∀ a, poisonedAcc a → poisonedAcc (f a))
    (h : ∃ p ∈ s, poisonedAcc p.2) :
    ∃ p ∈ updateAt k f s, poisonedAcc p.2 := by
  obtain ⟨p, hp, hpois⟩ := h
  obtain ⟨p', hp', h1, h2⟩ := mem_updateAt_of_mem k f hp
  refine ⟨p', hp', ?_⟩
  rcases h2 with h2 | h2
  · rw [h2]
    exact hpois
  · rw [h2]
    exact hf _ hpois

theorem poisoned_insertEntry {s : Stats TeamAccJs} {k : String}
    {v : TeamAccJs} (h : ∃ p ∈ s, poisonedAcc p.2) :
    ∃ p ∈ insertEntry s k v, poisonedAcc p.2 := by
  obtain ⟨p, hp, hpois⟩ := h
  exact ⟨p, mem_insertEntry_of_mem hp k v, hpois⟩

theorem poisoned_goalUpdate (x y : Option Int) {a : TeamAccJs}
    (h : poisonedAcc a) :
    poisonedAcc { a with goalsFor := jsAdd a.goalsFor x,
                         goalsAgainst := jsAdd a.goalsAgainst y } := by
  rcases h with h | h
  · left
    show jsAdd a.goalsFor x = none
    rw [h]
    exact jsAdd_poison_left x
  · right
    show jsAdd a.goalsAgainst y = none
    rw [h]
    exact jsAdd_poison_left y

theorem poisoned_processMatchJs {s : Stats TeamAccJs} (m : MatchJs)
    (h : ∃ p ∈ s, poisonedAcc p.2) :
    ∃ p ∈ processMatchJs s m, poisonedAcc p.2 := by
  simp only [processMatchJs]
  split
  · exact poisoned_updateAt_exists (fun a h => h)
      (poisoned_updateAt_exists (fun a h => h)
        (poisoned_updateAt_exists (fun a h => poisoned_goalUpdate _ _ h)
          (poisoned_updateAt_exists (fun a h => poisoned_goalUpdate _ _ h)
            (poisoned_updateAt_exists (fun a h => h)
              (poisoned_updateAt_exists (fun a h => h)
                (poisoned_insertEntry (poisoned_insertEntry h)))))))
  · split
    · exact poisoned_updateAt_exists (fun a h => h)
        (poisoned_updateAt_exists (fun a h => h)
          (poisoned_updateAt_exists (fun a h => poisoned_goalUpdate _ _ h)
            (poisoned_updateAt_exists (fun a h => poisoned_goalUpdate _ _ h)
              (poisoned_updateAt_exists (fun a h => h)
                (poisoned_updateAt_exists (fun a h => h)
                  (poisoned_insertEntry (poisoned_insertEntry h)))))))
    · exact poisoned_updateAt_exists (fun a h => h)
        (poisoned_updateAt_exists (fun a h => h)
          (poisoned_updateAt_exists (fun a h => poisoned_goalUpdate _ _ h)
            (poisoned_updateAt_exists (fun a h => poisoned_goalUpdate _ _ h)
              (poisoned_updateAt_exists (fun a h => h)
                (poisoned_updateAt_exists (fun a h => h)
                  (poisoned_insertEntry (poisoned_insertEntry h)))))))

theorem poison_created (s : Stats TeamAccJs) (m : MatchJs)
    (hm : m.scoreA = none ∨ m.scoreB = none) :
    ∃ p ∈ processMatchJs s m, poisonedAcc p.2 := by
  simp only [processMatchJs]
  set s2 := insertEntry (insertEntry s (teamKey m.teamA)
    (initAccJs (jsSort m.teamA))) (teamKey m.teamB)
    (initAccJs (jsSort m.teamB)) with hs2
  set s3 := updateAt (teamKey m.teamA)
    (fun t => { t with «matches» := t.«matches» + 1 }) s2 with hs3
  set s4 := updateAt (teamKey m.teamB)
    (fun t => { t with «matches» := t.«matches» + 1 }) s3 with hs4
  have hA : teamKey m.teamA ∈ keysOf s4 := by
    rw [hs4, keysOf_updateAt, hs3, keysOf_updateAt, hs2]
    exact mem_keysOf_insertEntry_of_mem
      (mem_keysOf_insertEntry_self _ _ _) _ _
  obtain ⟨a4, ha4⟩ := Option.isSome_iff_exists.mp (mem_keysOf_iff.mp hA)
  have h5 : ∃ p ∈ updateAt (teamKey m.teamA)
      (fun t => { t with goalsFor := jsAdd t.goalsFor m.scoreA,
                         goalsAgainst := jsAdd t.goalsAgainst m.scoreB }) s4,
      poisonedAcc p.2 := by
    refine ⟨(teamKey m.teamA,
      { a4 with goalsFor := jsAdd a4.goalsFor m.scoreA,
                goalsAgainst := jsAdd a4.goalsAgainst m.scoreB }), ?_, ?_⟩
    · apply lookupKey_mem
      rw [lookupKey_updateAt_self, ha4]
      rfl
    · rcases hm with hm | hm
      · left
        show jsAdd a4.goalsFor m.scoreA = none
        rw [hm]
        exact jsAdd_poison_right _
      · right
        show jsAdd a4.goalsAgainst m.scoreB = none
        rw [hm]
        exact jsAdd_poison_right _
  split
  · exact poisoned_updateAt_exists (fun a h => h)
      (poisoned_updateAt_exists (fun a h => h)
        (poisoned_updateAt_exists (fun a h => poisoned_goalUpdate _ _ h) h5))
  · split
    · exact poisoned_updateAt_exists (fun a h => h)
        (poisoned_updateAt_exists (fun a h => h)
          (poisoned_updateAt_exists (fun a h => poisoned_goalUpdate _ _ h) h5))
    · exact poisoned_updateAt_exists (fun a h => h)
        (poisoned_updateAt_exists (fun a h => h)
          (poisoned_updateAt_exists (fun a h => poisoned_goalUpdate _ _ h) h5))

theorem poisoned_foldlJs :
    ∀ (ms : List MatchJs) (s : Stats TeamAccJs),
      ((∃ p ∈ s, poisonedAcc p.2) ∨
        ∃ m ∈ ms, m.scoreA = none ∨ m.scoreB = none) →
      ∃ p ∈ ms.foldl processMatchJs s, poisonedAcc p.2
  | [], s, h => by
    rcases h with h | h
    · simpa using h
    · simp at h
  | m :: ms, s, h => by
    simp only [List.foldl_cons]
    apply poisoned_foldlJs ms
    rcases h with h | h
    · exact Or.inl (poisoned_processMatchJs m h)
    · obtain ⟨m', hm', hbad⟩ := h
      rcases List.mem_cons.mp hm' with hm' | hm'
      · subst hm'
        exact Or.inl (poison_created s m' hbad)
      · exact Or.inr ⟨m', hm', hbad⟩

/-- Claim C7, amended: `calculateTeamStats` does not fail fast — it has no
error path at all.  On any match list containing a match whose `scoreA` or
`scoreB` is absent/non-numeric, it returns normally and the result contains
a NaN-poisoned aggregate (an entry whose `goalsFor` or `goalsAgainst` is
`NaN`). -/
theorem nan_poisons_aggregates (ms : List MatchJs)
    (h : ∃ m ∈ ms, m.scoreA = none ∨ m.scoreB = none) :
    ∃ e ∈ calculateTeamStatsJs ms,
      e.goalsFor = none ∨ e.goalsAgainst = none := by
  obtain ⟨p, hp, hpois⟩ := poisoned_foldlJs ms [] (Or.inr h)
  refine ⟨finalizeJs p.2, ?_, hpois⟩
  unfold calculateTeamStatsJs
  rw [List.mem_insertionSort]
  exact List.mem_map_of_mem _ hp

theorem nan_poisons_aggregates_witness :
    (∃ m ∈ [cMatch7], m.scoreA = none ∨ m.scoreB = none) ∧
      ∃ e ∈ calculateTeamStatsJs [cMatch7],
        e.goalsFor = none ∨ e.goalsAgainst = none :=
  ⟨by decide, nan_poisons_aggregates [cMatch7] (by decide)⟩

/-! ### Owner scoping of the CRUD handlers -/

theorem filter_map_replace {α : Type} (p : α → Bool) (f : α → α)
    (l : List α) (h1 : ∀ x ∈ l, p x = true → f x = x)
    (h2 : ∀ x ∈ l, p x = false → p (f x) = false) :
    (l.map f).filter p = l.filter p := by
  induction l with
  | nil => rfl
  | cons x xs ih =>
    have ih' := ih (fun y hy => h1 y (List.mem_cons_of_mem x hy))
      (fun y hy => h2 y (List.mem_cons_of_mem x hy))
    cases hpx : p x
    · have hfx := h2 x (List.mem_cons_self x xs) hpx
      simp [List.filter_cons, hpx, hfx, ih']
    · have hfx := h1 x (List.mem_cons_self x xs) hpx
      simp [List.filter_cons, hpx, hfx, ih']

theorem filter_eraseP {α : Type} (p q : α → Bool) (l : List α)
    (hq : ∀ x ∈ l, q x = true → p x = false) :
    (l.eraseP q).filter p = l.filter p := by
  induction l with
  | nil => rfl
  | cons x xs ih =>
    have ih' := ih (fun y hy => hq y (List.mem_cons_of_mem x hy))
    cases hqx : q x
    · simp [List.eraseP_cons, hqx, List.filter_cons, ih']
    · have hpx := hq x (List.mem_cons_self x xs) hqx
      simp [List.eraseP_cons, hqx, List.filter_cons, hpx]

/-- Claim C8, amended: every authenticated handler in `server.js` is scoped
to the caller's owner identity — the reads return only the caller's records
and the writes leave every other user's records untouched (given the Mongo
invariant that `_id`s are unique within the collection).  The claim as
stated over the whole repository fails: the legacy unauthenticated handlers
in `src/unnamed/part_000` select by id only (see the counterexample). -/
theorem owner_scoping (caller : String) (db : Db)
    (hnodup : (db.groups.map GroupRec.id).Nodup) :
    (∀ g ∈ getGroups caller db, g.userId = caller) ∧
      (∀ m ∈ getMatches caller db, m.userId = caller) ∧
      (∀ id name members,
        othersGroups caller (postGroup caller db id name members).groups =
          othersGroups caller db.groups) ∧
      (∀ id name? members?,
        othersGroups caller (putGroup caller db id name? members?).groups =
          othersGroups caller db.groups) ∧
      (∀ id,
        othersGroups caller (deleteGroup caller db id).groups =
          othersGroups caller db.groups) ∧
      (∀ rec,
        othersMatches caller (postMatch caller db rec).«matches» =
          othersMatches caller db.«matches») := by
  refine ⟨?_, ?_, ?_, ?_, ?_, ?_⟩
  · intro g hg
    have := (List.mem_filter.mp hg).2
    simpa using this
  · intro m hm
    unfold getMatches at hm
    rw [List.mem_insertionSort] at hm
    have := (List.mem_filter.mp hm).2
    simpa using this
  · intro id name members
    simp [othersGroups, postGroup, List.filter_append]
  · intro id name? members?
    unfold putGroup
    cases hfind : db.groups.find?
        (fun g => decide (g.id = id) && decide (g.userId = caller)) with
    | none => rfl
    | some g0 =>
      have hg0mem := List.mem_of_find?_eq_some hfind
      have hg0p := List.find?_some hfind
      simp only [Bool.and_eq_true, decide_eq_true_eq] at hg0p
      unfold othersGroups
      apply filter_map_replace
      · intro x hx hpx
        simp only [decide_eq_true_eq] at hpx
        rw [if_neg]
        intro hid
        have hxg0 : x = g0 :=
          List.inj_on_of_nodup_map hnodup hx hg0mem (by rw [hid])
        rw [hxg0] at hpx
        exact hpx hg0p.2
      · intro x hx hpx
        simp only [decide_eq_false_iff_not, not_not] at hpx
        by_cases hid : x.id = g0.id
        · rw [if_pos hid]
          simp [jsOrStr, hg0p.2]
        · rw [if_neg hid]
          simp [hpx]
  · intro id
    unfold deleteGroup othersGroups
    apply filter_eraseP
    intro x hx hqx
    simp only [Bool.and_eq_true, decide_eq_true_eq] at hqx
    simp [hqx.2]
  · intro rec
    simp [othersMatches, postMatch, List.filter_append]

/-- Two users' records, for the scoping witness. -/
def wDb8 : Db :=
  ⟨[⟨"g1", "pelada", [], "alice"⟩, ⟨"g2", "time", [], "bob"⟩],
    [⟨"m1", ["a"], ["b"], 1, 0, 5, "alice"⟩]⟩

theorem owner_scoping_witness :
    (wDb8.groups.map GroupRec.id).Nodup ∧
      (∀ g ∈ getGroups "alice" wDb8, g.userId = "alice") ∧
      othersGroups "alice"
          (putGroup "alice" wDb8 "g2" (some "roubado") none).groups =
        othersGroups "alice" wDb8.groups :=
  ⟨by decide, (owner_scoping "alice" wDb8 (by decide)).1,
    (owner_scoping "alice" wDb8 (by decide)).2.2.2.1 "g2" (some "roubado")
      none⟩

/-- The database for the legacy counterexample: one group, owned by
`alice`. -/
def cDb8 : Db := ⟨[⟨"g1", "pelada", [], "alice"⟩], []⟩

/-- Counterexample to claim C8 as stated over the whole repository: the
legacy `PUT /api/groups/:id` of `src/unnamed/part_000` runs with no
authentication and selects the record by id only, so a request made by any
caller other than `alice` rewrites `alice`'s record. -/
theorem legacy_put_modifies_other_users_record :
    (putGroupLegacy cDb8 "g1" (some "hacked") none none).groups =
        [⟨"g1", "hacked", [], "alice"⟩] ∧
      (∀ g ∈ cDb8.groups, g.userId = "alice") ∧
      (putGroupLegacy cDb8 "g1" (some "hacked") none none).groups ≠
        cDb8.groups := by
  decide

end GeradorTimes
